import Mathlib

/-!
Verification development for the tauri-plugin-mcp MCP server (TypeScript).

Shallow embedding of the core data model and operations:
ring-buffered process output, launch timeout selection, JSON-RPC request
construction, click/fill local validation, launch idempotency, log filtering,
the retry wrapper of the protocol client, the SipHash-1-3 channel-identifier
hash, the rendezvous-path resolution, and the incremental JSON framing of the
response reader.

Machine integers are modelled as `Nat` with explicit reduction modulo `2 ^ 64`
where the JavaScript source masks BigInt values; byte buffers are `List Nat`;
strings are Lean `String` or `List Char`.
-/

/-! ## Ring buffer (TauriManager.launch stdout/stderr handlers)

Source: `this.outputBuffer.push(line); if (this.outputBuffer.length > 100)
this.outputBuffer.shift();` -/

/-- Ring-buffer capacity: the literal `100` in the launch output handlers. -/
def ringCapacity : Nat := 100

/-- One push into the bounded output buffer: append the new line, then drop the
oldest entry when the length exceeds the capacity. -/
def pushOutputLine (buf : List α) (line : α) : List α :=
  if (buf ++ [line]).length > ringCapacity then (buf ++ [line]).drop 1
  else buf ++ [line]

/-- Streaming a whole sequence of output lines into a buffer, oldest first. -/
def streamOutputLines (buf : List α) (lines : List α) : List α :=
  lines.foldl pushOutputLine buf

theorem pushOutputLine_length_le (buf : List α) (line : α)
    (h : buf.length ≤ ringCapacity) :
    (pushOutputLine buf line).length ≤ ringCapacity := by
  unfold pushOutputLine
  split
  · simp only [List.length_drop, List.length_append, List.length_cons,
      List.length_nil]
    omega
  · rename_i hc
    simp only [gt_iff_lt, not_lt, List.length_append, List.length_cons,
      List.length_nil] at hc
    simp only [List.length_append, List.length_cons, List.length_nil]
    omega

theorem streamOutputLines_eq (lines : List α) :
    ∀ buf : List α, buf.length ≤ ringCapacity →
      streamOutputLines buf lines =
        (buf ++ lines).drop (buf.length + lines.length - ringCapacity) := by
  induction lines with
  | nil =>
    intro buf h
    have h0 : buf.length - ringCapacity = 0 := by omega
    simp [streamOutputLines, h0]
  | cons l ls ih =>
    intro buf h
    have hstep : streamOutputLines buf (l :: ls) =
        streamOutputLines (pushOutputLine buf l) ls := by
      simp [streamOutputLines]
    rw [hstep]
    by_cases hlen : ringCapacity < buf.length + 1
    · -- the buffer was full: push drops the head
      have hfull : buf.length = ringCapacity := by omega
      have hpush : pushOutputLine buf l = (buf ++ [l]).drop 1 := by
        unfold pushOutputLine
        rw [if_pos]
        simp only [List.length_append, List.length_cons, List.length_nil,
          gt_iff_lt]
        omega
      have hlen' : ((buf ++ [l]).drop 1).length ≤ ringCapacity := by
        simp only [List.length_drop, List.length_append, List.length_cons,
          List.length_nil]
        omega
      rw [hpush, ih _ hlen']
      have hsplit : (buf ++ [l]).drop 1 ++ ls = (buf ++ [l] ++ ls).drop 1 := by
        rw [List.drop_append_of_le_length
          (by simp : 1 ≤ (buf ++ [l]).length)]
      rw [hsplit, List.drop_drop]
      have hassoc : buf ++ l :: ls = (buf ++ [l]) ++ ls := by simp
      rw [hassoc]
      congr 1
      simp only [List.length_drop, List.length_append, List.length_cons,
        List.length_nil]
      omega
    · -- room left: push is a plain append
      have hpush : pushOutputLine buf l = buf ++ [l] := by
        unfold pushOutputLine
        rw [if_neg]
        simp only [List.length_append, List.length_cons, List.length_nil,
          gt_iff_lt, not_lt]
        omega
      rw [hpush, ih _ (by
        simp only [List.length_append, List.length_cons, List.length_nil]
        omega)]
      have hready : (buf ++ [l]) ++ ls = buf ++ l :: ls := by simp
      rw [hready]
      congr 1
      simp only [List.length_append, List.length_cons, List.length_nil]
      omega

/-- C5: streaming more lines than the capacity (100) into the (initially empty)
ring buffer leaves exactly the capacity most recent lines in arrival order,
the oldest having been discarded first; the buffer never exceeds the capacity
after any push. -/
theorem ringBuffer_keeps_most_recent (lines : List α)
    (h : ringCapacity < lines.length) :
    streamOutputLines ([] : List α) lines
        = lines.drop (lines.length - ringCapacity) ∧
    (streamOutputLines ([] : List α) lines).length = ringCapacity ∧
    ∀ k : Nat, (streamOutputLines ([] : List α) (lines.take k)).length
        ≤ ringCapacity := by
  refine ⟨?_, ?_, ?_⟩
  · rw [streamOutputLines_eq lines [] (by simp)]
    simp
  · rw [streamOutputLines_eq lines [] (by simp)]
    simp
    omega
  · intro k
    rw [streamOutputLines_eq (lines.take k) [] (by simp)]
    simp
    omega

/-- Witness for C5 at a concrete 101-line input. -/
theorem ringBuffer_keeps_most_recent_witness :
    streamOutputLines ([] : List Nat) (List.range 101)
        = (List.range 101).drop ((List.range 101).length - ringCapacity) ∧
    (streamOutputLines ([] : List Nat) (List.range 101)).length = ringCapacity ∧
    ∀ k : Nat, (streamOutputLines ([] : List Nat) ((List.range 101).take k)).length
        ≤ ringCapacity :=
  ringBuffer_keeps_most_recent (List.range 101) (by decide)

/-! ## Launch readiness timeout (part_005 TauriManager.launch)

Source: `const hasCachedBuild = this.hasBuildCache();
const defaultTimeout = hasCachedBuild ? 60 : 300;
const timeoutSecs = options.timeout_secs ?? defaultTimeout;`
`hasBuildCache` (an `fs.existsSync` probe of the compiled debug binary) is
modelled by its boolean outcome. -/

/-- Default readiness timeout in seconds, chosen from the build-cache probe. -/
def defaultLaunchTimeoutSecs (hasCachedBuild : Bool) : Nat :=
  if hasCachedBuild then 60 else 300

/-- The timeout `launch` actually uses: an explicit option wins, otherwise the
cache-dependent default. -/
def effectiveTimeoutSecs (timeout_secs : Option Nat) (hasCachedBuild : Bool) : Nat :=
  match timeout_secs with
  | some t => t
  | none => defaultLaunchTimeoutSecs hasCachedBuild

/-- C9: with no explicit timeout, launch uses 300 s when no build artifact
exists and 60 s when a cached build exists; the two defaults are distinct;
an explicit timeout overrides both. -/
theorem launch_timeout_policy :
    effectiveTimeoutSecs none false = 300 ∧
    effectiveTimeoutSecs none true = 60 ∧
    (∀ (t : Nat) (c : Bool), effectiveTimeoutSecs (some t) c = t) ∧
    defaultLaunchTimeoutSecs true ≠ defaultLaunchTimeoutSecs false := by
  refine ⟨rfl, rfl, ?_, by decide⟩
  intro t c
  rfl

/-! ## JSON-RPC request construction (SocketManager.sendCommandOnce)

Source: `const request: JsonRpcRequest = { jsonrpc: '2.0', id: Date.now(),
method, params };` — the id is the millisecond clock at issue time. -/

/-- A JSON-RPC request as built by `sendCommandOnce`; `params` models the
`Record<string, unknown>` as an association list. -/
structure JsonRpcRequest where
  jsonrpc : String
  id : Nat
  method : String
  params : List (String × String)
deriving DecidableEq, Repr

/-- Request construction at clock value `now` (JavaScript `Date.now()`). -/
def mkRequest (now : Nat) (method : String) (params : List (String × String)) :
    JsonRpcRequest :=
  { jsonrpc := "2.0", id := now, method := method, params := params }

/-- C7 counterexample: two distinct protocol calls issued in the same
millisecond receive the same request id, so simultaneously awaited requests do
not always have distinct ids. -/
theorem requestId_collision_counterexample :
    (mkRequest 1700000000000 ("ping") []).id
      = (mkRequest 1700000000000 ("click") []).id ∧
    (mkRequest 1700000000000 ("ping") []).method
      ≠ (mkRequest 1700000000000 ("click") []).method := by
  constructor
  · rfl
  · decide

/-- C7 (amended): the per-call id is time-derived (`Date.now()`); the ids of
two calls coincide exactly when the calls are issued at the same millisecond
timestamp — calls at distinct milliseconds get distinct ids, calls within one
millisecond share an id. -/
theorem requestId_time_derived :
    ∀ (t1 t2 : Nat) (m1 m2 : String) (p1 p2 : List (String × String)),
      (mkRequest t1 m1 p1).id = (mkRequest t2 m2 p2).id ↔ t1 = t2 := by
  intro t1 t2 m1 m2 p1 p2
  constructor <;> intro h <;> simpa [mkRequest] using h

/-! ## Command facade local validation (tools/lifecycle.ts click / fill)

Source: `if (!args.ref && !args.selector) { throw new Error('Either ref or
selector must be provided'); } const result = await socketManager.click(args);`
JavaScript truthiness makes `ref: 0` and `selector: ''` count as absent. -/

/-- Arguments of the `click` tool. -/
structure ClickArgs where
  ref : Option Nat
  selector : Option String
  window : Option String
deriving DecidableEq, Repr

/-- Arguments of the `fill` tool. -/
structure FillArgs where
  ref : Option Nat
  selector : Option String
  value : String
  window : Option String
deriving DecidableEq, Repr

/-- JavaScript truthiness of an optional number (`undefined` and `0` are
falsy). -/
def truthyNum : Option Nat → Bool
  | none => false
  | some n => n != 0

/-- JavaScript truthiness of an optional string (`undefined` and `''` are
falsy). -/
def truthyStr : Option String → Bool
  | none => false
  | some s => s != ""

/-- Outcome of a facade handler: either a request went over the wire, or the
call was rejected locally and nothing was sent. -/
inductive FacadeOutcome (β : Type) where
  | sent (method : String) (args : β)
  | localError (msg : String)
deriving DecidableEq, Repr

/-- The `click` tool handler: local validation, then the wire request. -/
def clickTool (args : ClickArgs) : FacadeOutcome ClickArgs :=
  if !truthyNum args.ref && !truthyStr args.selector then
    .localError ("Either ref or selector must be provided")
  else
    .sent ("click") args

/-- The `fill` tool handler: local validation, then the wire request. -/
def fillTool (args : FillArgs) : FacadeOutcome FillArgs :=
  if !truthyNum args.ref && !truthyStr args.selector then
    .localError ("Either ref or selector must be provided")
  else
    .sent ("fill") args

/-- C8 counterexample: an input carrying BOTH a reference handle and a selector
passes the local validation and is sent over the wire, so the facade does not
require that exactly one of the two be present. -/
theorem click_both_present_accepted_counterexample :
    clickTool ⟨some 1, some ("#btn"), none⟩
      = .sent ("click") ⟨some 1, some ("#btn"), none⟩ := by
  decide

/-- C8 (amended): click and fill reject locally — sending nothing over the
wire — exactly when both the reference handle and the selector are absent
(JavaScript-falsy: a missing or zero ref, a missing or empty selector);
whenever at least one is present the request is sent, including when both are
present. -/
theorem click_fill_local_validation :
    ∀ (c : ClickArgs) (f : FillArgs),
      (clickTool c = .localError ("Either ref or selector must be provided")
          ↔ (truthyNum c.ref || truthyStr c.selector) = false) ∧
      (clickTool c = .sent ("click") c
          ↔ (truthyNum c.ref || truthyStr c.selector) = true) ∧
      (fillTool f = .localError ("Either ref or selector must be provided")
          ↔ (truthyNum f.ref || truthyStr f.selector) = false) ∧
      (fillTool f = .sent ("fill") f
          ↔ (truthyNum f.ref || truthyStr f.selector) = true) := by
  intro c f
  refine ⟨?_, ?_, ?_, ?_⟩ <;>
    simp only [clickTool, fillTool] <;>
      cases hr : truthyNum c.ref <;> cases hs : truthyStr c.selector <;>
        cases hr2 : truthyNum f.ref <;> cases hs2 : truthyStr f.selector <;>
          simp [hr, hs, hr2, hs2]

/-! ## Process supervisor data model and launch entry (TauriManager)

Two supervisor implementations live in the repository: the one in
`packages/tauri-mcp/src/managers/tauri.ts`, whose `launch` throws when a
process handle is already held, and the one in part_005, whose `launch`
returns an `already_running` result. Both check the detected app config
first, then the live process handle, and spawn only when no handle is held.
`parseBackendLogs` (regex-based log classification) enters the
already-running branch only through its output and is abstracted as a
function parameter. -/

/-- Discovered application configuration (immutable per session). -/
structure TauriAppConfig where
  appDir : String
  binaryName : String
  packageName : String
deriving DecidableEq, Repr

/-- Supervisor status values. -/
inductive AppStatus where
  | not_running
  | starting
  | running
deriving DecidableEq, Repr

/-- Build health verdict. -/
inductive BuildHealthStatus where
  | healthy
  | error
  | unknown
deriving DecidableEq, Repr

/-- A structured log entry; the optional structured detail fields
(file/line/column, url/method/status/duration) are not needed by any claim
and are omitted. -/
structure LogEntry where
  source : String
  category : String
  level : String
  message : String
  timestamp : Nat
deriving DecidableEq, Repr

/-- Status tag of a `LaunchResult` (part_005). -/
inductive LaunchStatus where
  | launched
  | already_running
  | build_error
deriving DecidableEq, Repr

/-- Result of `launch` (part_005), flattening the nested `buildHealth`
record into two fields. -/
structure LaunchResult where
  status : LaunchStatus
  message : String
  port : Nat
  frontendHealth : BuildHealthStatus
  backendHealth : BuildHealthStatus
  errors : List LogEntry
deriving DecidableEq, Repr

/-- The mutable fields of a `TauriManager` instance; the OS process handle is
modelled by its pid. -/
structure ManagerState where
  process : Option Nat
  status : AppStatus
  vitePort : Nat
  appConfig : Option TauriAppConfig
  outputBuffer : List String
  detectedPipePath : Option String
deriving DecidableEq, Repr

/-- What the entry of `launch` decides before any asynchronous work: either
answer the caller directly with an already-running result, or go on to spawn
a child process. -/
inductive LaunchAction where
  | returnAlreadyRunning (r : LaunchResult)
  | spawnChild
deriving DecidableEq, Repr

/-- The result object built by part_005 `launch` in its already-running
branch: current port, backend build-health verdict computed from the output
buffer, and the error entries. -/
def alreadyRunningResult (parseBackendLogs : List String → List LogEntry)
    (st : ManagerState) : LaunchResult :=
  { status := .already_running
    message := "App is already running"
    port := st.vitePort
    frontendHealth := .unknown
    backendHealth :=
      if (parseBackendLogs st.outputBuffer).any (fun e => e.level == "error")
      then BuildHealthStatus.error else BuildHealthStatus.healthy
    errors := (parseBackendLogs st.outputBuffer).filter
      (fun e => e.level == "error") }

/-- Entry of `launch` in part_005: reject when no app was detected; if a
process handle is held, return an `already_running` result instead of
erroring; otherwise proceed to spawn. -/
def launchCheckPart5 (parseBackendLogs : List String → List LogEntry)
    (st : ManagerState) : Except String LaunchAction :=
  match st.appConfig with
  | none => .error ("No Tauri app detected. Make sure src-tauri/Cargo.toml exists.")
  | some _ =>
    match st.process with
    | some _ => .ok (.returnAlreadyRunning (alreadyRunningResult parseBackendLogs st))
    | none => .ok .spawnChild

/-- Entry of `launch` in `packages/tauri-mcp/src/managers/tauri.ts`: same
config check, but a held process handle makes the call reject. -/
def launchCheckTauriTs (st : ManagerState) : Except String LaunchAction :=
  match st.appConfig with
  | none => .error ("No Tauri app detected. Make sure src-tauri/Cargo.toml exists.")
  | some _ =>
    match st.process with
    | some _ => .error ("App is already running. Stop it first.")
    | none => .ok .spawnChild

/-- A sample detected app configuration. -/
def demoAppConfig : TauriAppConfig :=
  { appDir := "demo", binaryName := "demo", packageName := "demo" }

/-- A supervisor state that already holds a live process handle. -/
def runningState : ManagerState :=
  { process := some 1
    status := .running
    vitePort := 14321
    appConfig := some demoAppConfig
    outputBuffer := []
    detectedPipePath := none }

/-- C4 counterexample: the supervisor in `packages/tauri-mcp` rejects
`launch()` with an error while a live process handle is held, instead of
returning an "already running" result. -/
theorem launch_while_running_errors_counterexample :
    launchCheckTauriTs runningState
      = .error ("App is already running. Stop it first.") := by
  rfl

/-- C4 (amended): while a live process handle is held, neither supervisor
spawns a second child — the part_005 supervisor answers with an
`already_running` result carrying the current port and build health, while the
`packages/tauri-mcp` supervisor rejects with an error; in both, a spawn
decision is reached only from a state holding no process handle, so at most
one active process handle exists per supervisor instance. -/
theorem launch_idempotency :
    ∀ (parseBackendLogs : List String → List LogEntry) (st : ManagerState)
      (p : Nat) (cfg : TauriAppConfig),
      st.process = some p → st.appConfig = some cfg →
      (∃ r, launchCheckPart5 parseBackendLogs st = .ok (.returnAlreadyRunning r)
          ∧ r.status = .already_running ∧ r.port = st.vitePort
          ∧ r.message = "App is already running") ∧
      launchCheckPart5 parseBackendLogs st ≠ .ok .spawnChild ∧
      launchCheckTauriTs st = .error ("App is already running. Stop it first.") ∧
      (∀ (st' : ManagerState) (pl : List String → List LogEntry),
        launchCheckPart5 pl st' = .ok .spawnChild → st'.process = none) ∧
      (∀ st' : ManagerState,
        launchCheckTauriTs st' = .ok .spawnChild → st'.process = none) := by
  intro parseBackendLogs st p cfg hp hcfg
  refine ⟨?_, ?_, ?_, ?_, ?_⟩
  · refine ⟨alreadyRunningResult parseBackendLogs st, ?_, rfl, rfl, rfl⟩
    unfold launchCheckPart5
    rw [hcfg, hp]
  · unfold launchCheckPart5
    rw [hcfg, hp]
    intro h
    simp at h
  · unfold launchCheckTauriTs
    rw [hcfg, hp]
  · intro st' pl h
    unfold launchCheckPart5 at h
    cases hc : st'.appConfig with
    | none => rw [hc] at h; simp at h
    | some c =>
      rw [hc] at h
      cases hpr : st'.process with
      | none => rfl
      | some q => rw [hpr] at h; simp at h
  · intro st' h
    unfold launchCheckTauriTs at h
    cases hc : st'.appConfig with
    | none => rw [hc] at h; simp at h
    | some c =>
      rw [hc] at h
      cases hpr : st'.process with
      | none => rfl
      | some q => rw [hpr] at h; simp at h

/-- Witness for C4 at a concrete running state. -/
theorem launch_idempotency_witness :
    (∃ r, launchCheckPart5 (fun _ => []) runningState
        = .ok (.returnAlreadyRunning r)
        ∧ r.status = .already_running ∧ r.port = runningState.vitePort
        ∧ r.message = "App is already running") ∧
    launchCheckPart5 (fun _ => []) runningState ≠ .ok .spawnChild ∧
    launchCheckTauriTs runningState
      = .error ("App is already running. Stop it first.") ∧
    (∀ (st' : ManagerState) (pl : List String → List LogEntry),
      launchCheckPart5 pl st' = .ok .spawnChild → st'.process = none) ∧
    (∀ st' : ManagerState,
      launchCheckTauriTs st' = .ok .spawnChild → st'.process = none) :=
  launch_idempotency (fun _ => []) runningState 1 demoAppConfig rfl rfl

/-! ## Log aggregation filters (tools/lifecycle.ts get_logs)

Source: filter tokens are split into level tokens (`error`, `warning`,
`info`) and source/category tokens (everything else); `matchesFilters`
returns true for the empty token list, and otherwise requires
(source match or no source tokens) AND (level match or no level tokens);
surviving entries are sorted ascending by timestamp and truncated with
`slice(-limit)`. -/

/-- The three level filter tokens of `get_logs`. -/
def levelFilterTokens : List String := ["error", "warning", "info"]

/-- The source/category half of the token split. -/
def sourceFiltersOf (filters : List String) : List String :=
  filters.filter (fun f => !(levelFilterTokens.contains f))

/-- The level half of the token split. -/
def levelFiltersOf (filters : List String) : List String :=
  filters.filter (fun f => levelFilterTokens.contains f)

/-- `matchesFilters` from the `get_logs` handler, on an entry's category and
level. -/
def matchesFilters (filters : List String) (category level : String) : Bool :=
  if filters.length == 0 then true
  else
    let sourceFilters := sourceFiltersOf filters
    let levelFilters := levelFiltersOf filters
    let sourceMatch :=
      sourceFilters.isEmpty
      || (sourceFilters.contains ("build") && category.startsWith ("build-"))
      || (sourceFilters.contains ("build-frontend") && (category == "build-frontend"))
      || (sourceFilters.contains ("build-backend") && (category == "build-backend"))
      || (sourceFilters.contains ("runtime") && category.startsWith ("runtime-"))
      || (sourceFilters.contains ("runtime-frontend") && (category == "runtime-frontend"))
      || (sourceFilters.contains ("runtime-backend") && (category == "runtime-backend"))
      || (sourceFilters.contains ("runtime-frontend-network")
            && (category == "runtime-frontend-network"))
    let levelMatch := levelFilters.isEmpty || levelFilters.contains level
    sourceMatch && levelMatch

/-- Whether a single category-family token matches a category (the per-token
match table of the handler, read off one token at a time). -/
def catTokenMatches (tok category : String) : Bool :=
  if tok == "build" then category.startsWith ("build-")
  else if tok == "build-frontend" then category == "build-frontend"
  else if tok == "build-backend" then category == "build-backend"
  else if tok == "runtime" then category.startsWith ("runtime-")
  else if tok == "runtime-frontend" then category == "runtime-frontend"
  else if tok == "runtime-backend" then category == "runtime-backend"
  else if tok == "runtime-frontend-network" then category == "runtime-frontend-network"
  else false

/-- The claim's filter semantics, as the spec words it: an entry passes iff
(it matches some category token, or no category tokens were given) AND
(it matches some level token, or no level tokens were given) — AND across the
two kinds, OR within a kind. -/
def specFilterSemantics (filters : List String) (category level : String) : Bool :=
  ((sourceFiltersOf filters).isEmpty
      || (sourceFiltersOf filters).any (fun t => catTokenMatches t category))
  && ((levelFiltersOf filters).isEmpty
      || (levelFiltersOf filters).any (fun t => t == level))

theorem contains_eq_any (l : List String) (a : String) :
    l.contains a = l.any (fun t => t == a) := by
  induction l with
  | nil => rfl
  | cons t ts ih =>
    simp only [List.contains_cons, List.any_cons, ← ih]
    rw [Bool.eq_iff_iff]
    simp only [Bool.or_eq_true, beq_iff_eq]
    constructor
    · rintro (h | h)
      · exact Or.inl h.symm
      · exact Or.inr h
    · rintro (h | h)
      · exact Or.inl h.symm
      · exact Or.inr h

theorem contains_true_iff (l : List String) (a : String) :
    l.contains a = true ↔ a ∈ l :=
  List.elem_iff

theorem sourceMatch_eq_any (src : List String) (category : String) :
    (src.isEmpty
      || (src.contains ("build") && category.startsWith ("build-"))
      || (src.contains ("build-frontend") && (category == "build-frontend"))
      || (src.contains ("build-backend") && (category == "build-backend"))
      || (src.contains ("runtime") && category.startsWith ("runtime-"))
      || (src.contains ("runtime-frontend") && (category == "runtime-frontend"))
      || (src.contains ("runtime-backend") && (category == "runtime-backend"))
      || (src.contains ("runtime-frontend-network")
            && (category == "runtime-frontend-network")))
    = (src.isEmpty || src.any (fun t => catTokenMatches t category)) := by
  rw [Bool.eq_iff_iff]
  simp only [Bool.or_eq_true, Bool.and_eq_true, List.any_eq_true,
    contains_true_iff]
  constructor
  · rintro (((((((he | ⟨hm, hc⟩) | ⟨hm, hc⟩) | ⟨hm, hc⟩) | ⟨hm, hc⟩)
      | ⟨hm, hc⟩) | ⟨hm, hc⟩) | ⟨hm, hc⟩)
    · exact Or.inl he
    · exact Or.inr ⟨_, hm, by simp [catTokenMatches, hc]⟩
    · exact Or.inr ⟨_, hm, by simp [catTokenMatches, hc]⟩
    · exact Or.inr ⟨_, hm, by simp [catTokenMatches, hc]⟩
    · exact Or.inr ⟨_, hm, by simp [catTokenMatches, hc]⟩
    · exact Or.inr ⟨_, hm, by simp [catTokenMatches, hc]⟩
    · exact Or.inr ⟨_, hm, by simp [catTokenMatches, hc]⟩
    · exact Or.inr ⟨_, hm, by simp [catTokenMatches, hc]⟩
  · rintro (he | ⟨t, hm, hmatch⟩)
    · exact Or.inl (Or.inl (Or.inl (Or.inl (Or.inl (Or.inl (Or.inl he))))))
    · unfold catTokenMatches at hmatch
      split_ifs at hmatch with h1 h2 h3 h4 h5 h6 h7
      · rw [beq_iff_eq] at h1
        subst h1
        exact Or.inl (Or.inl (Or.inl (Or.inl (Or.inl (Or.inl
          (Or.inr ⟨hm, hmatch⟩))))))
      · rw [beq_iff_eq] at h2
        subst h2
        exact Or.inl (Or.inl (Or.inl (Or.inl (Or.inl (Or.inr ⟨hm, hmatch⟩)))))
      · rw [beq_iff_eq] at h3
        subst h3
        exact Or.inl (Or.inl (Or.inl (Or.inl (Or.inr ⟨hm, hmatch⟩))))
      · rw [beq_iff_eq] at h4
        subst h4
        exact Or.inl (Or.inl (Or.inl (Or.inr ⟨hm, hmatch⟩)))
      · rw [beq_iff_eq] at h5
        subst h5
        exact Or.inl (Or.inl (Or.inr ⟨hm, hmatch⟩))
      · rw [beq_iff_eq] at h6
        subst h6
        exact Or.inl (Or.inr ⟨hm, hmatch⟩)
      · rw [beq_iff_eq] at h7
        subst h7
        exact Or.inr ⟨hm, hmatch⟩

theorem matchesFilters_eq_spec (filters : List String) (category level : String) :
    matchesFilters filters category level
      = specFilterSemantics filters category level := by
  unfold matchesFilters specFilterSemantics
  cases hf : filters with
  | nil => simp [sourceFiltersOf, levelFiltersOf]
  | cons f fs =>
    simp only [List.length_cons]
    rw [if_neg (by simp)]
    rw [sourceMatch_eq_any, contains_eq_any]

/-- Pointwise: the singleton `error` filter accepts exactly level-`error`
entries, whatever the category. -/
theorem matchesFilters_error_only (category level : String) :
    matchesFilters ["error"] category level = (level == "error") := by
  have hsrc : sourceFiltersOf ["error"] = [] := by decide
  have hlvl : levelFiltersOf ["error"] = ["error"] := by decide
  unfold matchesFilters
  rw [if_neg (by simp)]
  rw [hsrc, hlvl]
  simp only [List.isEmpty_nil, Bool.true_or, Bool.true_and, List.isEmpty_cons,
    Bool.false_or]
  rw [Bool.eq_iff_iff]
  simp only [contains_true_iff, List.mem_singleton, beq_iff_eq]

/-- The timestamp comparator of `get_logs`:
`allEntries.sort((a, b) => a.timestamp - b.timestamp)`. -/
def tsLe (a b : LogEntry) : Bool := decide (a.timestamp ≤ b.timestamp)

/-- JavaScript `slice(-n)`: the last `n` elements, the whole list when
`n = 0`. -/
def sliceNeg (n : Nat) (l : List α) : List α :=
  if n == 0 then l else l.drop (l.length - n)

/-- The entry pipeline of `get_logs`: filter the merged entries, sort
ascending by timestamp (stable, as ES2019 `Array.sort`), truncate to the most
recent `limit`. -/
def getLogsEntries (entries : List LogEntry) (filters : List String)
    (limit : Nat) : List LogEntry :=
  sliceNeg limit
    ((entries.filter (fun e => matchesFilters filters e.category e.level)).mergeSort
      tsLe)

theorem getLogsEntries_sorted (entries : List LogEntry) (filters : List String)
    (limit : Nat) :
    List.Pairwise (fun a b : LogEntry => a.timestamp ≤ b.timestamp)
      (getLogsEntries entries filters limit) := by
  have hsorted : List.Pairwise (fun a b : LogEntry => tsLe a b = true)
      ((entries.filter
          (fun e => matchesFilters filters e.category e.level)).mergeSort tsLe) :=
    List.sorted_mergeSort
      (fun a b c hab hbc => by
        simp only [tsLe, decide_eq_true_eq] at *
        omega)
      (fun a b => by
        simp only [tsLe]
        rcases Nat.le_total a.timestamp b.timestamp with h | h <;> simp [h])
      _
  have hmono : List.Pairwise (fun a b : LogEntry => a.timestamp ≤ b.timestamp)
      ((entries.filter
          (fun e => matchesFilters filters e.category e.level)).mergeSort tsLe) :=
    hsorted.imp (fun h => by simpa [tsLe] using h)
  unfold getLogsEntries sliceNeg
  split
  · exact hmono
  · exact hmono.sublist (List.drop_sublist _ _)

theorem getLogsEntries_length (entries : List LogEntry) (filters : List String)
    (limit : Nat) :
    (getLogsEntries entries filters limit).length
      = (if limit = 0
          then (entries.filter
            (fun e => matchesFilters filters e.category e.level)).length
          else min limit (entries.filter
            (fun e => matchesFilters filters e.category e.level)).length) := by
  unfold getLogsEntries sliceNeg
  rcases Nat.eq_zero_or_pos limit with h0 | hpos
  · subst h0
    simp [List.length_mergeSort]
  · rw [if_neg (by simpa using Nat.pos_iff_ne_zero.mp hpos),
      if_neg (Nat.pos_iff_ne_zero.mp hpos)]
    simp only [List.length_drop, List.length_mergeSort]
    omega

/-- C6: log filtering — the empty token set matches every entry; the handler's
`matchesFilters` agrees everywhere with the spec semantics (AND across the two
token kinds, OR within a kind, an absent kind matching everything); the
singleton `error` filter keeps exactly the level-`error` entries across every
category; and the surviving entries are returned sorted ascending by timestamp
and truncated to the most recent `limit`. -/
theorem getLogs_filter_semantics :
    ∀ (filters : List String) (category level : String)
      (entries : List LogEntry) (limit : Nat),
      matchesFilters [] category level = true ∧
      matchesFilters filters category level
        = specFilterSemantics filters category level ∧
      entries.filter (fun e => matchesFilters ["error"] e.category e.level)
        = entries.filter (fun e => e.level == "error") ∧
      List.Pairwise (fun a b : LogEntry => a.timestamp ≤ b.timestamp)
        (getLogsEntries entries filters limit) ∧
      (getLogsEntries entries filters limit).length
        = (if limit = 0
            then (entries.filter
              (fun e => matchesFilters filters e.category e.level)).length
            else min limit (entries.filter
              (fun e => matchesFilters filters e.category e.level)).length) := by
  intro filters category level entries limit
  refine ⟨by simp [matchesFilters], matchesFilters_eq_spec _ _ _, ?_,
    getLogsEntries_sorted _ _ _, getLogsEntries_length _ _ _⟩
  exact List.filter_congr (fun e _ => matchesFilters_error_only _ _)

/-! ## Protocol client retry wrapper (SocketManager.sendCommand)

Source: a loop of up to `MAX_RETRIES = 3` attempts; a failed attempt is
retried (after a backoff of `RETRY_DELAY_MS * attempt`) only when
`isRetryableError` holds of the error and the attempt bound is not reached,
otherwise the error propagates. `isRetryableError` lower-cases the message
and looks for the substrings econnrefused / econnreset / epipe /
"connection closed" / "starting up". The per-attempt transport outcome is
modelled as a function from the attempt number to `Except`. -/

/-- Whether `pat` occurs as a prefix of `s` (character lists). -/
def listStarts (pat s : List Char) : Bool :=
  match pat, s with
  | [], _ => true
  | _ :: _, [] => false
  | p :: ps, c :: cs => p == c && listStarts ps cs

/-- Whether `pat` occurs as a substring of `s` (character lists). -/
def listHasSub (s pat : List Char) : Bool :=
  match s with
  | [] => listStarts pat []
  | _ :: cs => listStarts pat s || listHasSub cs pat

/-- JavaScript `String.prototype.includes`. -/
def strIncludes (s pat : String) : Bool :=
  listHasSub s.data pat.data

/-- JavaScript `String.prototype.toLowerCase`, modelled as the character-wise
lower-casing of the string. -/
def lowerCase (s : String) : String :=
  String.mk (s.data.map Char.toLower)

/-- `SocketManager.isRetryableError`: lower-case the message, test the five
transient substrings. -/
def isRetryableError (message : String) : Bool :=
  let m := lowerCase message
  strIncludes m ("econnrefused")
  || strIncludes m ("econnreset")
  || strIncludes m ("epipe")
  || strIncludes m ("connection closed")
  || strIncludes m ("starting up")

/-- Error message produced for ENOENT (channel absent). -/
def absentErrorMessage : String := "App not running. Use launch_app first."

/-- Error message produced for ECONNREFUSED (channel refusing). -/
def refusedErrorMessage : String := "App is starting up. Please wait and try again."

/-- Error message produced for any other socket error, wrapping the raw
message (e.g. "read ECONNRESET", "write EPIPE"). -/
def socketErrorMessage (raw : String) : String := "Socket error: " ++ raw

/-- Error message produced when the connection closes with no data received. -/
def closedNoDataErrorMessage : String := "Connection closed without response"

/-- Error message produced on the fixed 30-second timeout. -/
def timeoutErrorMessage : String := "Command timed out after 30 seconds"

/-- `SocketManager.MAX_RETRIES`. -/
def MAX_RETRIES : Nat := 3

/-- `SocketManager.RETRY_DELAY_MS`. -/
def RETRY_DELAY_MS : Nat := 500

/-- The backoff slept before re-issuing after attempt `attempt`:
`RETRY_DELAY_MS * attempt`, increasing with the attempt number. -/
def retryBackoffDelayMs (attempt : Nat) : Nat := RETRY_DELAY_MS * attempt

/-- The retry loop of `sendCommand` from attempt number `attempt`: run the
attempt; on success return; on failure re-issue only when the error is
retryable and the bound is not reached, else propagate the error. -/
def sendCommandGo (outcomes : Nat → Except String α) (attempt : Nat) :
    Except String α :=
  match outcomes attempt with
  | .ok v => .ok v
  | .error e =>
    if h : isRetryableError e = true ∧ attempt < MAX_RETRIES then
      sendCommandGo outcomes (attempt + 1)
    else .error e
termination_by MAX_RETRIES + 1 - attempt
decreasing_by
  simp only [MAX_RETRIES] at *
  omega

/-- `SocketManager.sendCommand`: the retry loop started at attempt 1. -/
def sendCommand (outcomes : Nat → Except String α) : Except String α :=
  sendCommandGo outcomes 1

theorem sendCommandGo_ok (outcomes : Nat → Except String α) (a : Nat) (v : α)
    (h : outcomes a = .ok v) : sendCommandGo outcomes a = .ok v := by
  rw [sendCommandGo, h]

theorem sendCommandGo_retry (outcomes : Nat → Except String α) (a : Nat)
    (e : String) (h : outcomes a = .error e) (hr : isRetryableError e = true)
    (ha : a < MAX_RETRIES) :
    sendCommandGo outcomes a = sendCommandGo outcomes (a + 1) := by
  rw [sendCommandGo, h]
  simp [hr, ha]

theorem sendCommandGo_stop (outcomes : Nat → Except String α) (a : Nat)
    (e : String) (h : outcomes a = .error e)
    (hs : ¬(isRetryableError e = true ∧ a < MAX_RETRIES)) :
    sendCommandGo outcomes a = .error e := by
  rw [sendCommandGo, h]
  simp [hs]

/-- The concrete outcome sequence of the C1 counterexample: the first attempt
fails with the channel-absent error, every later attempt would succeed. -/
def absentThenOk : Nat → Except String Nat :=
  fun n => if n = 1 then .error absentErrorMessage else .ok 0

/-- C1 counterexample: the channel-absent failure ("App not running", the
Absent case) is not in the retried subset — `sendCommand` rejects with it on
the first attempt even though the second attempt would have succeeded, so the
claim's transient subset (which includes Absent) is wrong about the code. -/
theorem sendCommand_absent_not_retried_counterexample :
    sendCommand absentThenOk = .error absentErrorMessage ∧
    absentThenOk 2 = .ok 0 ∧
    isRetryableError absentErrorMessage = false := by
  refine ⟨?_, rfl, by decide⟩
  have h1 : absentThenOk 1 = .error absentErrorMessage := rfl
  exact sendCommandGo_stop absentThenOk 1 absentErrorMessage h1
    (by rw [show isRetryableError absentErrorMessage = false from by decide]; simp)

/-- C1 (amended): `sendCommand` re-issues the identical request up to 3
attempts with strictly increasing backoff, and retries only errors whose
message contains one of econnrefused / econnreset / epipe /
"connection closed" / "starting up" (case-insensitively) — so the Refused,
reset, broken-pipe, closed-without-data and "starting up" application errors
are retried, while the Absent ("App not running") error and every other
failure (e.g. the timeout) propagate on their first occurrence; fewer
consecutive retryable failures than the bound followed by a success resolves
with that success, and retryable failures at the bound reject with the final
error. -/
theorem sendCommand_retry_policy :
    (∀ (outcomes : Nat → Except String Nat) (e : String),
      outcomes 1 = .error e → isRetryableError e = false →
      sendCommand outcomes = .error e) ∧
    (∀ (outcomes : Nat → Except String Nat) (v : Nat) (j : Nat),
      j < MAX_RETRIES →
      (∀ i, 1 ≤ i → i ≤ j →
        ∃ e, outcomes i = .error e ∧ isRetryableError e = true) →
      outcomes (j + 1) = .ok v →
      sendCommand outcomes = .ok v) ∧
    (∀ (outcomes : Nat → Except String Nat) (e3 : String),
      (∀ i, 1 ≤ i → i < MAX_RETRIES →
        ∃ e, outcomes i = .error e ∧ isRetryableError e = true) →
      outcomes MAX_RETRIES = .error e3 →
      sendCommand outcomes = .error e3) ∧
    (isRetryableError refusedErrorMessage = true ∧
      isRetryableError (socketErrorMessage ("read ECONNRESET")) = true ∧
      isRetryableError (socketErrorMessage ("write EPIPE")) = true ∧
      isRetryableError closedNoDataErrorMessage = true ∧
      isRetryableError ("Server is starting up") = true ∧
      isRetryableError absentErrorMessage = false ∧
      isRetryableError timeoutErrorMessage = false) ∧
    (∀ a b : Nat, a < b → retryBackoffDelayMs a < retryBackoffDelayMs b) := by
  refine ⟨?_, ?_, ?_, by decide, ?_⟩
  · intro outcomes e h1 hr
    exact sendCommandGo_stop outcomes 1 e h1 (by simp [hr])
  · intro outcomes v j hj hfail hok
    unfold sendCommand
    have hj3 : j < 3 := by simpa [MAX_RETRIES] using hj
    interval_cases j
    · exact sendCommandGo_ok outcomes 1 v hok
    · obtain ⟨e1, he1, hr1⟩ := hfail 1 (by omega) (by omega)
      rw [sendCommandGo_retry outcomes 1 e1 he1 hr1 (by decide)]
      exact sendCommandGo_ok outcomes 2 v hok
    · obtain ⟨e1, he1, hr1⟩ := hfail 1 (by omega) (by omega)
      obtain ⟨e2, he2, hr2⟩ := hfail 2 (by omega) (by omega)
      rw [sendCommandGo_retry outcomes 1 e1 he1 hr1 (by decide)]
      rw [sendCommandGo_retry outcomes 2 e2 he2 hr2 (by decide)]
      exact sendCommandGo_ok outcomes 3 v hok
  · intro outcomes e3 hfail h3
    unfold sendCommand
    obtain ⟨e1, he1, hr1⟩ := hfail 1 (by omega) (by decide)
    obtain ⟨e2, he2, hr2⟩ := hfail 2 (by omega) (by decide)
    rw [sendCommandGo_retry outcomes 1 e1 he1 hr1 (by decide)]
    rw [sendCommandGo_retry outcomes 2 e2 he2 hr2 (by decide)]
    exact sendCommandGo_stop outcomes 3 e3 h3 (by simp [MAX_RETRIES])
  · intro a b hab
    unfold retryBackoffDelayMs RETRY_DELAY_MS
    omega

/-- The concrete outcome sequence of the C1 witness: a refused first attempt,
success on the second. -/
def refusedThenOk : Nat → Except String Nat :=
  fun n => if n = 1 then .error refusedErrorMessage else .ok 7

/-- Witness for C1 at a concrete outcome sequence: one retryable (Refused)
failure followed by a success resolves with that success. -/
theorem sendCommand_retry_policy_witness :
    sendCommand refusedThenOk = .ok 7 :=
  sendCommand_retry_policy.2.1 refusedThenOk 7 1 (by decide)
    (fun i h1 h2 => by
      have hi : i = 1 := by omega
      subst hi
      exact ⟨refusedErrorMessage, rfl, by decide⟩)
    rfl

/-! ## SipHash-1-3 channel-identifier hash (managers/tauri.ts SipHasher)

The streaming hasher that computes the Windows named-pipe namespace hash.
BigInt values masked with `0xffffffffffffffff` are modelled as `Nat` reduced
modulo `2 ^ 64`; byte buffers are `List Nat`. -/

/-- Reduction modulo 2^64 (`& 0xffffffffffffffff` on a non-negative BigInt). -/
def band64 (x : Nat) : Nat := x % 2 ^ 64

/-- 64-bit rotate left: `((x << b) | (x >> (64 - b))) & mask64`. -/
def rotl64 (x b : Nat) : Nat := band64 ((x <<< b) ||| (x >>> (64 - b)))

/-- The four 64-bit words of the hasher. -/
structure SipState where
  v0 : Nat
  v1 : Nat
  v2 : Nat
  v3 : Nat
deriving DecidableEq, Repr

/-- One SipHash round (`sipRound`), transcribing the assignment sequence. -/
def sipRound (s : SipState) : SipState :=
  let v0 := band64 (s.v0 + s.v1)
  let v1 := rotl64 s.v1 13
  let v1 := v1 ^^^ v0
  let v0 := rotl64 v0 32
  let v2 := band64 (s.v2 + s.v3)
  let v3 := rotl64 s.v3 16
  let v3 := v3 ^^^ v2
  let v0 := band64 (v0 + v3)
  let v3 := rotl64 v3 21
  let v3 := v3 ^^^ v0
  let v2 := band64 (v2 + v1)
  let v1 := rotl64 v1 17
  let v1 := v1 ^^^ v2
  let v2 := rotl64 v2 32
  ⟨v0, v1, v2, v3⟩

/-- The constructor's initial state, with the fixed key constants
`k0 = 0x736f6d6570736575` and `k1 = 0x646f72616e646f6d` xored against the
SipHash initialization constants exactly as the source writes it. -/
def initialSipState : SipState :=
  { v0 := Nat.xor 0x736f6d6570736575 0x736f6d6570736575
    v1 := Nat.xor 0x646f72616e646f6d 0x646f72616e646f6d
    v2 := Nat.xor 0x736f6d6570736575 0x6c7967656e657261
    v3 := Nat.xor 0x646f72616e646f6d 0x7465646279746573 }

/-- Little-endian word assembly: `m |= byte_j << (j * 8)`. -/
def le64 : List Nat → Nat
  | [] => 0
  | b :: rest => b ||| (le64 rest <<< 8)

/-- Ingest one 8-byte block: `v3 ^= m; sipRound(); v0 ^= m` (SipHash-1-3 has
one compression round per block). -/
def sipCompress (s : SipState) (m : Nat) : SipState :=
  let s1 : SipState := { s with v3 := s.v3 ^^^ m }
  let s2 := sipRound s1
  { s2 with v0 := s2.v0 ^^^ m }

/-- The streaming hasher: word state, partial-tail accumulator (`tail` /
`ntail`, kept as a list of fewer than 8 bytes), total ingested byte count. -/
structure SipHasher where
  state : SipState
  tail : List Nat
  length : Nat
deriving DecidableEq, Repr

/-- `new SipHasher()`. -/
def SipHasher.new : SipHasher :=
  { state := initialSipState, tail := [], length := 0 }

/-- The whole-blocks loop of `write`: consume 8-byte blocks while at least 8
bytes remain, returning the final word state and the leftover bytes. -/
def processBlocks (s : SipState) (bs : List Nat) : SipState × List Nat :=
  if h : 8 ≤ bs.length then
    processBlocks (sipCompress s (le64 (bs.take 8))) (bs.drop 8)
  else (s, bs)
termination_by bs.length
decreasing_by
  simp only [List.length_drop]
  omega

/-- `SipHasher.write`: top up the partial tail first, compress it when it
reaches 8 bytes, consume the remaining whole blocks, and keep the leftover
bytes as the new tail. -/
def SipHasher.write (h : SipHasher) (data : List Nat) : SipHasher :=
  let need := 8 - h.tail.length
  let tail1 := h.tail ++ data.take need
  let rest := data.drop need
  if tail1.length = 8 then
    let pr := processBlocks (sipCompress h.state (le64 tail1)) rest
    { state := pr.1, tail := pr.2, length := h.length + data.length }
  else
    { state := h.state, tail := tail1, length := h.length + data.length }

/-- The 8 little-endian bytes of a 64-bit value
(`Buffer.writeBigUInt64LE`). -/
def usizeLEBytes (value : Nat) : List Nat :=
  (List.range 8).map (fun i => value / 256 ^ i % 256)

/-- `SipHasher.writeUsize`: write the value's 8 little-endian bytes. -/
def SipHasher.writeUsize (h : SipHasher) (value : Nat) : SipHasher :=
  h.write (usizeLEBytes value)

/-- The finalization shared by `finish` and the reference: final block
carrying the byte count in the top byte and the tail bytes below, then
`v2 ^= 0xff`, three extra rounds, and the xor of the four words. -/
def sipFinalize (s : SipState) (totalLen : Nat) (tail : List Nat) : Nat :=
  let b := ((totalLen % 256) <<< 56) ||| le64 tail
  let s1 := sipCompress s b
  let s2 : SipState := { s1 with v2 := s1.v2 ^^^ 0xff }
  let s3 := sipRound (sipRound (sipRound s2))
  band64 (Nat.xor (Nat.xor s3.v0 s3.v1) (Nat.xor s3.v2 s3.v3))

/-- `SipHasher.finish` applies the finalization to the hasher's state, byte
count and tail. -/
def SipHasher.finish (h : SipHasher) : Nat :=
  sipFinalize h.state h.length h.tail

/-- `hashBytesLikeRust`: length first (one little-endian 8-byte block via
`writeUsize`), then the data bytes, then finalization. -/
def hashBytesLikeRust (data : List Nat) : Nat :=
  (((SipHasher.new).writeUsize data.length).write data).finish

/-- The reference one-shot SipHash-1-3 described by the spec: the message is
the 8 little-endian length bytes followed by the input bytes; whole 8-byte
little-endian blocks are compressed with the add/rotate/xor round, the final
block carries the message byte count in its top byte and the partial tail
below, finalization xors 0xff into `v2`, runs three extra rounds and outputs
the xor of all four words. -/
def sipHash13Spec (data : List Nat) : Nat :=
  sipFinalize
    (processBlocks initialSipState (usizeLEBytes data.length ++ data)).1
    (usizeLEBytes data.length ++ data).length
    (processBlocks initialSipState (usizeLEBytes data.length ++ data)).2

theorem usizeLEBytes_length (value : Nat) : (usizeLEBytes value).length = 8 := by
  simp [usizeLEBytes]

theorem write_from_aligned (s : SipState) (len : Nat) (data : List Nat) :
    SipHasher.write ⟨s, [], len⟩ data
      = ⟨(processBlocks s data).1, (processBlocks s data).2,
          len + data.length⟩ := by
  unfold SipHasher.write
  simp only [List.length_nil, Nat.sub_zero, List.nil_append]
  by_cases h8 : 8 ≤ data.length
  · have hunfold : processBlocks s data
        = processBlocks (sipCompress s (le64 (data.take 8))) (data.drop 8) := by
      rw [processBlocks, dif_pos h8]
    rw [if_pos (by rw [List.length_take]; omega), hunfold]
  · have hunfold : processBlocks s data = (s, data) := by
      rw [processBlocks, dif_neg h8]
    rw [if_neg (by rw [List.length_take]; omega), hunfold]
    rw [List.take_of_length_le (by omega)]

theorem writeUsize_new (value : Nat) :
    (SipHasher.new).writeUsize value
      = ⟨sipCompress initialSipState (le64 (usizeLEBytes value)), [], 8⟩ := by
  unfold SipHasher.writeUsize SipHasher.new
  rw [write_from_aligned]
  have hunfold : processBlocks initialSipState (usizeLEBytes value)
      = (sipCompress initialSipState (le64 (usizeLEBytes value)), []) := by
    rw [processBlocks, dif_pos (by rw [usizeLEBytes_length])]
    rw [List.take_of_length_le (by rw [usizeLEBytes_length]),
      List.drop_of_length_le (by rw [usizeLEBytes_length])]
    rw [processBlocks, dif_neg (by simp)]
  rw [hunfold]
  simp [usizeLEBytes_length]

/-- The streaming hasher call pattern of `hashBytesLikeRust` computes the
one-shot reference hash over the concatenated message. -/
theorem hashBytes_eq_spec (data : List Nat) :
    hashBytesLikeRust data = sipHash13Spec data := by
  unfold hashBytesLikeRust sipHash13Spec SipHasher.finish
  rw [writeUsize_new, write_from_aligned]
  have hmsg : processBlocks initialSipState (usizeLEBytes data.length ++ data)
      = processBlocks
          (sipCompress initialSipState (le64 (usizeLEBytes data.length)))
          data := by
    rw [processBlocks, dif_pos (by
      rw [List.length_append, usizeLEBytes_length]
      omega)]
    rw [show (8 : Nat) = (usizeLEBytes data.length).length from
      (usizeLEBytes_length _).symm]
    rw [List.take_left, List.drop_left]
  rw [hmsg, List.length_append, usizeLEBytes_length]

/-- C2: for every byte sequence, the streaming channel-identifier hash
(`hashBytesLikeRust`, length block first, little-endian blocks with a
partial-tail accumulator, add/rotate/xor rounds, 0xff finalization with three
extra rounds, xor of the four words) equals the reference one-shot
SipHash-1-3 with the same fixed key constants. -/
theorem siphash_matches_reference :
    ∀ data : List Nat, hashBytesLikeRust data = sipHash13Spec data :=
  fun data => hashBytes_eq_spec data

/-! ## Rendezvous-channel resolution (getSocketPath)

`packages/tauri-mcp/src/managers/tauri.ts` derives the Windows pipe name from
the hash of the (canonicalized) project root; part_005 instead prefers a pipe
path detected from process output and falls back to enumerating the OS pipe
namespace. `path.resolve` canonicalization is modelled by taking the already
resolved path as input; `path.join` by `/`-concatenation. -/

/-- The fixed socket file name used on socket-file platforms. -/
def SOCKET_FILE_NAME : String := ".tauri-mcp.sock"

/-- UTF-8 bytes of a string (`Buffer.from(path, 'utf-8')`). -/
def utf8Bytes (s : String) : List Nat :=
  s.toUTF8.toList.map (fun b => b.toNat)

/-- Lower-case hexadecimal rendering (`hash.toString(16)`). -/
def natToHex (n : Nat) : String := (Nat.toDigits 16 n).asString

/-- `hashPathLikeRust` of `managers/tauri.ts` on an already-resolved path. -/
def hashPathLikeRust (normalizedPath : String) : String :=
  natToHex (hashBytesLikeRust (utf8Bytes normalizedPath))

/-- The Windows pipe path of `packages/tauri-mcp`'s `getSocketPath`:
`\\.\pipe\tauri-mcp-{hash}`. -/
def windowsPipePathTs (normalizedRoot : String) : String :=
  "\\\\.\\pipe\\tauri-mcp-" ++ hashPathLikeRust normalizedRoot

/-- The ambient inputs of part_005's resolution: the pipe path remembered
from parsed process output, and the OS pipe namespace listing read by
`calculateWindowsPipePath`. -/
structure ResolverState where
  detectedPipePath : Option String
  pipeNamespace : List String
deriving DecidableEq, Repr

/-- part_005 `calculateWindowsPipePath`: first `tauri-mcp-` pipe found in the
OS pipe namespace. -/
def calculateWindowsPipePath (st : ResolverState) : Option String :=
  match st.pipeNamespace.filter (fun f => f.startsWith ("tauri-mcp-")) with
  | [] => none
  | p :: _ => some ("//./pipe/" ++ p)

/-- part_005 `getSocketPath`: on Windows, prefer the detected pipe path, then
the enumerated namespace, then a sentinel; on Unix, the fixed socket file
name under the app directory (`socketDir`). -/
def getSocketPathPart5 (win32 : Bool) (socketDir : String)
    (st : ResolverState) : String :=
  if win32 then
    match st.detectedPipePath with
    | some p => p
    | none =>
      match calculateWindowsPipePath st with
      | some p => p
      | none => "\\\\.\\pipe\\tauri-mcp-unknown"
  else socketDir ++ "/" ++ SOCKET_FILE_NAME

/-- A resolver state that has detected one pipe path from process output. -/
def detectedStateA : ResolverState :=
  { detectedPipePath := some ("\\\\.\\pipe\\tauri-mcp-aaa"), pipeNamespace := [] }

/-- A resolver state that has detected a different pipe path. -/
def detectedStateB : ResolverState :=
  { detectedPipePath := some ("\\\\.\\pipe\\tauri-mcp-bbb"), pipeNamespace := [] }

/-- C10 counterexample: on the named-pipe platform, part_005's resolution over
one and the same root yields different identifiers under different detected
states, so it is not a deterministic function of the root path alone. -/
theorem resolver_state_dependent_counterexample :
    getSocketPathPart5 true ("/proj") detectedStateA
      ≠ getSocketPathPart5 true ("/proj") detectedStateB := by
  decide

/-- C10 (amended): the socket-file resolution is a function of the root
directory alone (independent of the resolver state), and the hash-based
named-pipe path of `packages/tauri-mcp` is determined by the resolved root
path alone — two independent computations, the streaming hasher and the
one-shot reference, produce the identical identifier; part_005's Windows
resolution, by contrast, additionally depends on the detected/enumerated
pipe state. -/
theorem resolver_determinism :
    (∀ (socketDir : String) (st st' : ResolverState),
      getSocketPathPart5 false socketDir st
        = getSocketPathPart5 false socketDir st') ∧
    (∀ normalizedRoot : String,
      windowsPipePathTs normalizedRoot
        = "\\\\.\\pipe\\tauri-mcp-"
            ++ natToHex (sipHash13Spec (utf8Bytes normalizedRoot))) := by
  constructor
  · intro socketDir st st'
    rfl
  · intro normalizedRoot
    unfold windowsPipePathTs hashPathLikeRust
    rw [hashBytes_eq_spec]

/-! ## Incremental JSON framing (SocketManager.sendCommandOnce data handler)

Source: `data += chunk.toString(); try { const response = JSON.parse(data);
client.end(); ... } catch (e) { /* incomplete JSON, wait for more data */ }`
(the same accumulate-and-try-parse loop appears in part_005
`TauriManager.verifyAppReady`). `JSON.parse` acceptance is modelled by a
recursive-descent recognizer over character lists following the JSON
grammar; escape sequences inside strings are modelled as a backslash
consuming one following character. The recognizers take a fuel argument
(consumed once per grammar-level call) so that they are structurally
recursive; `jsonFuel` supplies more fuel than any input can consume. -/

/-- JSON insignificant whitespace. -/
def isJsonWs (c : Char) : Bool :=
  c == ' ' || c == '\t' || c == '\n' || c == '\r'

/-- Drop leading JSON whitespace. -/
def skipWs : List Char → List Char
  | [] => []
  | c :: cs => if isJsonWs c then skipWs cs else c :: cs

/-- Whether a character list is all JSON whitespace. -/
def wsOnly (s : List Char) : Bool := s.all isJsonWs

/-- Whether the last character exists and is not JSON whitespace. -/
def lastNotWs (s : List Char) : Bool :=
  match s.getLast? with
  | some c => !isJsonWs c
  | none => false

/-- Recognize a fixed literal continuation (the `rue` of `true`, etc.). -/
def expectLit : List Char → List Char → Option (List Char)
  | [], s => some s
  | _ :: _, [] => none
  | c :: cs, x :: xs => if x == c then expectLit cs xs else none

/-- Recognize the remainder of a JSON string after its opening quote:
characters until the closing quote, a backslash consuming the following
character. -/
def parseStrTail : List Char → Option (List Char)
  | [] => none
  | [c] => if c == '"' then some [] else none
  | c :: d :: cs =>
    if c == '"' then some (d :: cs)
    else if c == '\\' then parseStrTail cs
    else parseStrTail (d :: cs)

/-- Recognize a non-empty digit run and return the rest. -/
def parseDigits (r : List Char) : Option (List Char) :=
  if (r.takeWhile Char.isDigit).isEmpty then none
  else some (r.dropWhile Char.isDigit)

/-- Recognize the digits of an exponent after the optional sign. -/
def parseExpDigits : List Char → Option (List Char)
  | [] => none
  | c :: t =>
    if c == '+' || c == '-' then parseDigits t
    else parseDigits (c :: t)

/-- Recognize an optional exponent part. -/
def parseExpPart (r : List Char) : Option (List Char) :=
  match r with
  | [] => some []
  | c :: t => if c == 'e' || c == 'E' then parseExpDigits t else some (c :: t)

/-- Recognize an optional fraction followed by an optional exponent. -/
def parseFracExp : List Char → Option (List Char)
  | [] => some []
  | c :: t =>
    if c == '.' then
      match parseDigits t with
      | none => none
      | some r3 => parseExpPart r3
    else parseExpPart (c :: t)

/-- JSON forbids redundant leading zeros in the integer part. -/
def hasLeadingZero : List Char → Bool
  | c :: _ :: _ => c == '0'
  | _ => false

/-- Recognize a JSON integer part and what follows: non-empty digit run
without a redundant leading zero, then fraction/exponent. -/
def parseNumBody (s1 : List Char) : Option (List Char) :=
  if (s1.takeWhile Char.isDigit).isEmpty then none
  else if hasLeadingZero (s1.takeWhile Char.isDigit) then none
  else parseFracExp (s1.dropWhile Char.isDigit)

/-- Recognize a JSON number: optional minus, non-empty integer part without a
leading zero, optional fraction, optional exponent. -/
def parseNum : List Char → Option (List Char)
  | [] => none
  | c :: r => if c == '-' then parseNumBody r else parseNumBody (c :: r)

mutual

/-- Recognize one JSON value and return the unconsumed remainder. -/
def parseVal : Nat → List Char → Option (List Char)
  | 0, _ => none
  | fuel + 1, s =>
    match skipWs s with
    | [] => none
    | c :: r =>
      if c == '{' then parseObjTail fuel r
      else if c == '[' then parseArrTail fuel r
      else if c == '"' then parseStrTail r
      else if c == 't' then expectLit (['r', 'u', 'e']) r
      else if c == 'f' then expectLit (['a', 'l', 's', 'e']) r
      else if c == 'n' then expectLit (['u', 'l', 'l']) r
      else parseNum (c :: r)

/-- Recognize the inside of an object after `{`: an immediate `}` or the
members. -/
def parseObjTail : Nat → List Char → Option (List Char)
  | 0, _ => none
  | fuel + 1, s =>
    match skipWs s with
    | [] => none
    | c :: r =>
      if c == '}' then some r
      else parseObjMember fuel s

/-- Recognize one or more object members separated by commas, then the
closing `}`. -/
def parseObjMember : Nat → List Char → Option (List Char)
  | 0, _ => none
  | fuel + 1, s =>
    match skipWs s with
    | [] => none
    | c :: r =>
      if c == '"' then
        match parseStrTail r with
        | none => none
        | some r2 =>
          match skipWs r2 with
          | [] => none
          | c2 :: r3 =>
            if c2 == ':' then
              match parseVal fuel r3 with
              | none => none
              | some r4 =>
                match skipWs r4 with
                | [] => none
                | c3 :: r5 =>
                  if c3 == ',' then parseObjMember fuel r5
                  else if c3 == '}' then some r5
                  else none
            else none
      else none

/-- Recognize the inside of an array after `[`: an immediate `]` or the
elements. -/
def parseArrTail : Nat → List Char → Option (List Char)
  | 0, _ => none
  | fuel + 1, s =>
    match skipWs s with
    | [] => none
    | c :: r =>
      if c == ']' then some r
      else parseArrElem fuel s

/-- Recognize one or more array elements separated by commas, then the
closing `]`. -/
def parseArrElem : Nat → List Char → Option (List Char)
  | 0, _ => none
  | fuel + 1, s =>
    match parseVal fuel s with
    | none => none
    | some r2 =>
      match skipWs r2 with
      | [] => none
      | c :: r3 =>
        if c == ',' then parseArrElem fuel r3
        else if c == ']' then some r3
        else none

end

/-- Fuel amply covering any input: each grammar-level call consumes at least
one character per three fuel units. -/
def jsonFuel (s : List Char) : Nat := 3 * s.length + 4

/-- Run the value recognizer with ample fuel. -/
def parseJson (s : List Char) : Option (List Char) :=
  parseVal (jsonFuel s) s

/-- `JSON.parse(s)` succeeds: one JSON value followed only by whitespace. -/
def jsonComplete (s : List Char) : Bool :=
  match parseJson s with
  | some r => wsOnly r
  | none => false

/-- The `data` event loop of `sendCommandOnce`: append each chunk to the
accumulated buffer and settle the pending promise at the first buffer state
that parses as complete JSON; returns the buffer at settlement, `none` when
the call never settles. -/
def runDataEvents : List Char → List (List Char) → Option (List Char)
  | _, [] => none
  | buf, c :: cs =>
    if jsonComplete (buf ++ c) then some (buf ++ c)
    else runDataEvents (buf ++ c) cs

/-- Heads of a value that make the value self-delimiting (object, array,
string, or a fixed-width literal): recognizing such a value consumes the same
characters whatever follows. -/
def valSelfDelim (s : List Char) : Bool :=
  match skipWs s with
  | [] => false
  | c :: _ => c == '{' || c == '[' || c == '"' || c == 't' || c == 'f' || c == 'n'

theorem skipWs_append (s t : List Char) (c : Char) (r : List Char)
    (h : skipWs s = c :: r) : skipWs (s ++ t) = c :: (r ++ t) := by
  induction s with
  | nil => simp [skipWs] at h
  | cons a as ih =>
    simp only [skipWs] at h
    by_cases hw : isJsonWs a = true
    · rw [if_pos hw] at h
      simp only [List.cons_append, skipWs]
      rw [if_pos hw]
      exact ih h
    · rw [if_neg hw] at h
      injection h with h1 h2
      subst h1
      subst h2
      simp only [List.cons_append, skipWs]
      rw [if_neg hw]
      rfl

theorem dropWhile_append_cons (p : Char → Bool) (s t : List Char) (d : Char)
    (ds : List Char) (h : s.dropWhile p = d :: ds) :
    (s ++ t).dropWhile p = d :: (ds ++ t) := by
  rw [List.dropWhile_append, h]
  simp

theorem takeWhile_append_of_dropWhile_cons (p : Char → Bool) (s t : List Char)
    (d : Char) (ds : List Char) (h : s.dropWhile p = d :: ds) :
    (s ++ t).takeWhile p = s.takeWhile p := by
  rw [List.takeWhile_append]
  rw [if_neg]
  intro hlen
  have hsum : s.takeWhile p ++ s.dropWhile p = s :=
    List.takeWhile_append_dropWhile p s
  have : (s.takeWhile p).length + (s.dropWhile p).length = s.length := by
    rw [← List.length_append, hsum]
  rw [h] at this
  simp at this
  omega

theorem expectLit_ext : ∀ (lit s t r : List Char), expectLit lit s = some r →
    expectLit lit (s ++ t) = some (r ++ t) := by
  intro lit
  induction lit with
  | nil =>
    intro s t r h
    simp only [expectLit] at h
    injection h with h
    subst h
    rfl
  | cons c cs ih =>
    intro s t r h
    cases s with
    | nil => simp [expectLit] at h
    | cons x xs =>
      simp only [expectLit] at h
      simp only [List.cons_append, expectLit]
      by_cases hx : (x == c) = true
      · rw [if_pos hx] at h
        rw [if_pos hx]
        exact ih xs t r h
      · rw [if_neg hx] at h
        exact absurd h (by simp)

theorem parseStrTail_ext_aux : ∀ (n : Nat) (s t r : List Char), s.length ≤ n →
    parseStrTail s = some r → parseStrTail (s ++ t) = some (r ++ t) := by
  intro n
  induction n with
  | zero =>
    intro s t r hlen h
    cases s with
    | nil => simp [parseStrTail] at h
    | cons c cs =>
      simp only [List.length_cons] at hlen
      omega
  | succ n ih =>
    intro s t r hlen h
    match s with
    | [] => simp [parseStrTail] at h
    | [c] =>
      simp only [parseStrTail] at h
      by_cases hq : (c == '"') = true
      · rw [if_pos hq] at h
        injection h with h
        subst h
        cases t with
        | nil =>
          simp only [List.append_nil]
          simp only [parseStrTail]
          rw [if_pos hq]
        | cons d ts =>
          simp only [List.singleton_append, parseStrTail]
          rw [if_pos hq]
          rfl
      · rw [if_neg hq] at h
        exact absurd h (by simp)
    | c :: d :: cs =>
      simp only [parseStrTail] at h
      simp only [List.cons_append, parseStrTail]
      by_cases hq : (c == '"') = true
      · rw [if_pos hq] at h
        injection h with h
        subst h
        rw [if_pos hq]
        rfl
      · rw [if_neg hq] at h
        rw [if_neg hq]
        by_cases hb : (c == '\\') = true
        · rw [if_pos hb] at h
          rw [if_pos hb]
          exact ih cs t r
            (by simp only [List.length_cons] at hlen; omega) h
        · rw [if_neg hb] at h
          rw [if_neg hb]
          exact ih (d :: cs) t r
            (by simp only [List.length_cons] at hlen ⊢; omega) h

theorem parseStrTail_ext (s t r : List Char) (h : parseStrTail s = some r) :
    parseStrTail (s ++ t) = some (r ++ t) :=
  parseStrTail_ext_aux s.length s t r (le_refl _) h

theorem parseDigits_ext (r t r3 : List Char) (h : parseDigits r = some r3)
    (hne : r3 ≠ []) : parseDigits (r ++ t) = some (r3 ++ t) := by
  unfold parseDigits at h ⊢
  by_cases he : (r.takeWhile Char.isDigit).isEmpty = true
  · rw [if_pos he] at h
    exact absurd h (by simp)
  · rw [if_neg he] at h
    injection h with h
    subst h
    obtain ⟨d, ds, hd⟩ : ∃ d ds, r.dropWhile Char.isDigit = d :: ds := by
      cases hdc : r.dropWhile Char.isDigit with
      | nil => exact absurd hdc hne
      | cons d ds => exact ⟨d, ds, rfl⟩
    rw [if_neg (by
      rw [takeWhile_append_of_dropWhile_cons _ _ _ _ _ hd]
      exact he)]
    rw [dropWhile_append_cons _ _ _ _ _ hd, hd]
    simp

theorem parseExpDigits_ext (r t r3 : List Char)
    (h : parseExpDigits r = some r3) (hne : r3 ≠ []) :
    parseExpDigits (r ++ t) = some (r3 ++ t) := by
  cases r with
  | nil => simp [parseExpDigits] at h
  | cons c cr =>
    simp only [parseExpDigits] at h
    simp only [List.cons_append, parseExpDigits]
    by_cases hs : (c == '+' || c == '-') = true
    · rw [if_pos hs] at h
      rw [if_pos hs]
      exact parseDigits_ext cr t r3 h hne
    · rw [if_neg hs] at h
      rw [if_neg hs]
      have := parseDigits_ext (c :: cr) t r3 h hne
      simpa using this

theorem parseExpPart_ext (r t r3 : List Char) (h : parseExpPart r = some r3)
    (hne : r3 ≠ []) : parseExpPart (r ++ t) = some (r3 ++ t) := by
  cases r with
  | nil =>
    simp only [parseExpPart] at h
    injection h with h
    exact absurd h.symm hne
  | cons c t0 =>
    simp only [parseExpPart] at h
    simp only [List.cons_append, parseExpPart]
    by_cases he : (c == 'e' || c == 'E') = true
    · rw [if_pos he] at h
      rw [if_pos he]
      exact parseExpDigits_ext t0 t r3 h hne
    · rw [if_neg he] at h
      rw [if_neg he]
      injection h with h
      subst h
      rfl

theorem parseFracExp_ext (r t r3 : List Char) (h : parseFracExp r = some r3)
    (hne : r3 ≠ []) : parseFracExp (r ++ t) = some (r3 ++ t) := by
  cases r with
  | nil =>
    simp only [parseFracExp] at h
    injection h with h
    exact absurd h.symm hne
  | cons c t0 =>
    simp only [parseFracExp] at h
    simp only [List.cons_append, parseFracExp]
    by_cases hd : (c == '.') = true
    · rw [if_pos hd] at h
      rw [if_pos hd]
      cases hpd : parseDigits t0 with
      | none => rw [hpd] at h; exact absurd h (by simp)
      | some r3a =>
        rw [hpd] at h
        have hr3a : r3a ≠ [] := by
          intro h0
          subst h0
          simp only [parseExpPart] at h
          injection h with h
          exact absurd h.symm hne
        rw [parseDigits_ext t0 t r3a hpd hr3a]
        exact parseExpPart_ext r3a t r3 h hne
    · rw [if_neg hd] at h
      rw [if_neg hd]
      have := parseExpPart_ext (c :: t0) t r3 h hne
      simpa using this

theorem parseNumBody_ext (s1 t r : List Char) (h : parseNumBody s1 = some r)
    (hne : r ≠ []) : parseNumBody (s1 ++ t) = some (r ++ t) := by
  unfold parseNumBody at h ⊢
  by_cases he : (s1.takeWhile Char.isDigit).isEmpty = true
  · rw [if_pos he] at h
    exact absurd h (by simp)
  · rw [if_neg he] at h
    by_cases hz : hasLeadingZero (s1.takeWhile Char.isDigit) = true
    · rw [if_pos hz] at h
      exact absurd h (by simp)
    · rw [if_neg hz] at h
      obtain ⟨d, ds, hd⟩ : ∃ d ds, s1.dropWhile Char.isDigit = d :: ds := by
        cases hdc : s1.dropWhile Char.isDigit with
        | nil =>
          rw [hdc] at h
          simp only [parseFracExp] at h
          injection h with h
          exact absurd h.symm hne
        | cons d ds => exact ⟨d, ds, rfl⟩
      rw [if_neg (by
        rw [takeWhile_append_of_dropWhile_cons _ _ _ _ _ hd]
        exact he)]
      rw [if_neg (by
        rw [takeWhile_append_of_dropWhile_cons _ _ _ _ _ hd]
        exact hz)]
      rw [dropWhile_append_cons _ _ _ _ _ hd]
      rw [hd] at h
      have := parseFracExp_ext (d :: ds) t r h hne
      simpa using this

theorem parseNum_ext (s t r : List Char) (h : parseNum s = some r)
    (hne : r ≠ []) : parseNum (s ++ t) = some (r ++ t) := by
  cases s with
  | nil => simp [parseNum] at h
  | cons c cr =>
    simp only [parseNum] at h
    simp only [List.cons_append, parseNum]
    by_cases hm : (c == '-') = true
    · rw [if_pos hm] at h
      rw [if_pos hm]
      exact parseNumBody_ext cr t r h hne
    · rw [if_neg hm] at h
      rw [if_neg hm]
      have := parseNumBody_ext (c :: cr) t r h hne
      simpa using this

theorem parseMono : ∀ f : Nat,
    (∀ s r, parseVal f s = some r → parseVal (f + 1) s = some r) ∧
    (∀ s r, parseObjTail f s = some r → parseObjTail (f + 1) s = some r) ∧
    (∀ s r, parseObjMember f s = some r → parseObjMember (f + 1) s = some r) ∧
    (∀ s r, parseArrTail f s = some r → parseArrTail (f + 1) s = some r) ∧
    (∀ s r, parseArrElem f s = some r → parseArrElem (f + 1) s = some r) := by
  intro f
  induction f with
  | zero =>
    refine ⟨?_, ?_, ?_, ?_, ?_⟩ <;> intro s r h <;>
      simp [parseVal, parseObjTail, parseObjMember, parseArrTail,
        parseArrElem] at h
  | succ f ih =>
    obtain ⟨ihV, ihOT, ihOM, ihAT, ihAE⟩ := ih
    refine ⟨?_, ?_, ?_, ?_, ?_⟩
    · -- parseVal
      intro s r h
      simp only [parseVal] at h ⊢
      cases hsw : skipWs s with
      | nil =>
        rw [hsw] at h
        exact absurd h (by simp)
      | cons c r0 =>
        rw [hsw] at h
        simp only [] at h ⊢
        by_cases h1 : (c == '{') = true
        · rw [if_pos h1] at h ⊢
          exact ihOT _ _ h
        · rw [if_neg h1] at h ⊢
          by_cases h2 : (c == '[') = true
          · rw [if_pos h2] at h ⊢
            exact ihAT _ _ h
          · rw [if_neg h2] at h ⊢
            by_cases h3 : (c == '"') = true
            · rw [if_pos h3] at h ⊢
              exact h
            · rw [if_neg h3] at h ⊢
              by_cases h4 : (c == 't') = true
              · rw [if_pos h4] at h ⊢
                exact h
              · rw [if_neg h4] at h ⊢
                by_cases h5 : (c == 'f') = true
                · rw [if_pos h5] at h ⊢
                  exact h
                · rw [if_neg h5] at h ⊢
                  by_cases h6 : (c == 'n') = true
                  · rw [if_pos h6] at h ⊢
                    exact h
                  · rw [if_neg h6] at h ⊢
                    exact h
    · -- parseObjTail
      intro s r h
      simp only [parseObjTail] at h ⊢
      cases hsw : skipWs s with
      | nil =>
        rw [hsw] at h
        exact absurd h (by simp)
      | cons c r0 =>
        rw [hsw] at h
        simp only [] at h ⊢
        by_cases h1 : (c == '}') = true
        · rw [if_pos h1] at h ⊢
          exact h
        · rw [if_neg h1] at h ⊢
          exact ihOM _ _ h
    · -- parseObjMember
      intro s r h
      simp only [parseObjMember] at h ⊢
      cases hsw : skipWs s with
      | nil =>
        rw [hsw] at h
        exact absurd h (by simp)
      | cons c r0 =>
        rw [hsw] at h
        simp only [] at h ⊢
        by_cases h1 : (c == '"') = true
        · rw [if_pos h1] at h ⊢
          cases hst : parseStrTail r0 with
          | none =>
            rw [hst] at h
            exact absurd h (by simp)
          | some r2 =>
            rw [hst] at h
            simp only [] at h ⊢
            cases hsw2 : skipWs r2 with
            | nil =>
              rw [hsw2] at h
              exact absurd h (by simp)
            | cons c2 r3 =>
              rw [hsw2] at h
              simp only [] at h ⊢
              by_cases h2 : (c2 == ':') = true
              · rw [if_pos h2] at h ⊢
                cases hv : parseVal f r3 with
                | none =>
                  rw [hv] at h
                  exact absurd h (by simp)
                | some r4 =>
                  rw [hv] at h
                  rw [ihV _ _ hv]
                  simp only [] at h ⊢
                  cases hsw3 : skipWs r4 with
                  | nil =>
                    rw [hsw3] at h
                    exact absurd h (by simp)
                  | cons c3 r5 =>
                    rw [hsw3] at h
                    simp only [] at h ⊢
                    by_cases h3 : (c3 == ',') = true
                    · rw [if_pos h3] at h ⊢
                      exact ihOM _ _ h
                    · rw [if_neg h3] at h ⊢
                      exact h
              · rw [if_neg h2] at h
                exact absurd h (by simp)
        · rw [if_neg h1] at h
          exact absurd h (by simp)
    · -- parseArrTail
      intro s r h
      simp only [parseArrTail] at h ⊢
      cases hsw : skipWs s with
      | nil =>
        rw [hsw] at h
        exact absurd h (by simp)
      | cons c r0 =>
        rw [hsw] at h
        simp only [] at h ⊢
        by_cases h1 : (c == ']') = true
        · rw [if_pos h1] at h ⊢
          exact h
        · rw [if_neg h1] at h ⊢
          exact ihAE _ _ h
    · -- parseArrElem
      intro s r h
      simp only [parseArrElem] at h ⊢
      cases hv : parseVal f s with
      | none =>
        rw [hv] at h
        exact absurd h (by simp)
      | some r2 =>
        rw [hv] at h
        rw [ihV _ _ hv]
        simp only [] at h ⊢
        cases hsw : skipWs r2 with
        | nil =>
          rw [hsw] at h
          exact absurd h (by simp)
        | cons c r3 =>
          rw [hsw] at h
          simp only [] at h ⊢
          by_cases h1 : (c == ',') = true
          · rw [if_pos h1] at h ⊢
            exact ihAE _ _ h
          · rw [if_neg h1] at h ⊢
            exact h

theorem parseValLe (f f' : Nat) (s r : List Char) (hle : f ≤ f')
    (h : parseVal f s = some r) : parseVal f' s = some r := by
  induction hle with
  | refl => exact h
  | step _ ih => exact (parseMono _).1 _ _ ih

theorem skipWs_ne_nil_of_cons (x : List Char) (c : Char) (r : List Char)
    (h : skipWs x = c :: r) : x ≠ [] := by
  intro h0
  subst h0
  simp [skipWs] at h

theorem parseExt : ∀ f : Nat,
    (∀ s t r, parseVal f s = some r → (r ≠ [] ∨ valSelfDelim s = true) →
      parseVal f (s ++ t) = some (r ++ t)) ∧
    (∀ s t r, parseObjTail f s = some r →
      parseObjTail f (s ++ t) = some (r ++ t)) ∧
    (∀ s t r, parseObjMember f s = some r →
      parseObjMember f (s ++ t) = some (r ++ t)) ∧
    (∀ s t r, parseArrTail f s = some r →
      parseArrTail f (s ++ t) = some (r ++ t)) ∧
    (∀ s t r, parseArrElem f s = some r →
      parseArrElem f (s ++ t) = some (r ++ t)) := by
  intro f
  induction f with
  | zero =>
    refine ⟨?_, ?_, ?_, ?_, ?_⟩ <;> intro s t r h <;>
      simp [parseVal, parseObjTail, parseObjMember, parseArrTail,
        parseArrElem] at h
  | succ f ih =>
    obtain ⟨ihV, ihOT, ihOM, ihAT, ihAE⟩ := ih
    refine ⟨?_, ?_, ?_, ?_, ?_⟩
    · -- parseVal
      intro s t r h hside
      simp only [parseVal] at h ⊢
      cases hsw : skipWs s with
      | nil =>
        rw [hsw] at h
        exact absurd h (by simp)
      | cons c r0 =>
        rw [hsw] at h
        rw [skipWs_append s t c r0 hsw]
        simp only [] at h ⊢
        by_cases h1 : (c == '{') = true
        · rw [if_pos h1] at h ⊢
          exact ihOT _ _ _ h
        · rw [if_neg h1] at h ⊢
          by_cases h2 : (c == '[') = true
          · rw [if_pos h2] at h ⊢
            exact ihAT _ _ _ h
          · rw [if_neg h2] at h ⊢
            by_cases h3 : (c == '"') = true
            · rw [if_pos h3] at h ⊢
              exact parseStrTail_ext _ _ _ h
            · rw [if_neg h3] at h ⊢
              by_cases h4 : (c == 't') = true
              · rw [if_pos h4] at h ⊢
                exact expectLit_ext _ _ _ _ h
              · rw [if_neg h4] at h ⊢
                by_cases h5 : (c == 'f') = true
                · rw [if_pos h5] at h ⊢
                  exact expectLit_ext _ _ _ _ h
                · rw [if_neg h5] at h ⊢
                  by_cases h6 : (c == 'n') = true
                  · rw [if_pos h6] at h ⊢
                    exact expectLit_ext _ _ _ _ h
                  · rw [if_neg h6] at h ⊢
                    have hne : r ≠ [] := by
                      rcases hside with hne | hsd
                      · exact hne
                      · exfalso
                        unfold valSelfDelim at hsd
                        rw [hsw] at hsd
                        simp only [] at hsd
                        simp [h1, h2, h3, h4, h5, h6] at hsd
                    have := parseNum_ext (c :: r0) t r h hne
                    simpa using this
    · -- parseObjTail
      intro s t r h
      simp only [parseObjTail] at h ⊢
      cases hsw : skipWs s with
      | nil =>
        rw [hsw] at h
        exact absurd h (by simp)
      | cons c r0 =>
        rw [hsw] at h
        rw [skipWs_append s t c r0 hsw]
        simp only [] at h ⊢
        by_cases h1 : (c == '}') = true
        · rw [if_pos h1] at h ⊢
          injection h with h
          subst h
          rfl
        · rw [if_neg h1] at h ⊢
          exact ihOM _ _ _ h
    · -- parseObjMember
      intro s t r h
      simp only [parseObjMember] at h ⊢
      cases hsw : skipWs s with
      | nil =>
        rw [hsw] at h
        exact absurd h (by simp)
      | cons c r0 =>
        rw [hsw] at h
        rw [skipWs_append s t c r0 hsw]
        simp only [] at h ⊢
        by_cases h1 : (c == '"') = true
        · rw [if_pos h1] at h ⊢
          cases hst : parseStrTail r0 with
          | none =>
            rw [hst] at h
            exact absurd h (by simp)
          | some r2 =>
            rw [hst] at h
            rw [parseStrTail_ext _ t _ hst]
            simp only [] at h ⊢
            cases hsw2 : skipWs r2 with
            | nil =>
              rw [hsw2] at h
              exact absurd h (by simp)
            | cons c2 r3 =>
              rw [hsw2] at h
              rw [skipWs_append r2 t c2 r3 hsw2]
              simp only [] at h ⊢
              by_cases h2 : (c2 == ':') = true
              · rw [if_pos h2] at h ⊢
                cases hv : parseVal f r3 with
                | none =>
                  rw [hv] at h
                  exact absurd h (by simp)
                | some r4 =>
                  rw [hv] at h
                  simp only [] at h
                  cases hsw3 : skipWs r4 with
                  | nil =>
                    rw [hsw3] at h
                    exact absurd h (by simp)
                  | cons c3 r5 =>
                    rw [hsw3] at h
                    have hr4ne : r4 ≠ [] := skipWs_ne_nil_of_cons _ _ _ hsw3
                    rw [ihV _ t _ hv (Or.inl hr4ne)]
                    simp only []
                    rw [skipWs_append r4 t c3 r5 hsw3]
                    simp only [] at h ⊢
                    by_cases h3 : (c3 == ',') = true
                    · rw [if_pos h3] at h ⊢
                      exact ihOM _ _ _ h
                    · rw [if_neg h3] at h ⊢
                      by_cases h4 : (c3 == '}') = true
                      · rw [if_pos h4] at h ⊢
                        injection h with h
                        subst h
                        rfl
                      · rw [if_neg h4] at h
                        exact absurd h (by simp)
              · rw [if_neg h2] at h
                exact absurd h (by simp)
        · rw [if_neg h1] at h
          exact absurd h (by simp)
    · -- parseArrTail
      intro s t r h
      simp only [parseArrTail] at h ⊢
      cases hsw : skipWs s with
      | nil =>
        rw [hsw] at h
        exact absurd h (by simp)
      | cons c r0 =>
        rw [hsw] at h
        rw [skipWs_append s t c r0 hsw]
        simp only [] at h ⊢
        by_cases h1 : (c == ']') = true
        · rw [if_pos h1] at h ⊢
          injection h with h
          subst h
          rfl
        · rw [if_neg h1] at h ⊢
          exact ihAE _ _ _ h
    · -- parseArrElem
      intro s t r h
      simp only [parseArrElem] at h ⊢
      cases hv : parseVal f s with
      | none =>
        rw [hv] at h
        exact absurd h (by simp)
      | some r2 =>
        rw [hv] at h
        simp only [] at h
        cases hsw : skipWs r2 with
        | nil =>
          rw [hsw] at h
          exact absurd h (by simp)
        | cons c r3 =>
          rw [hsw] at h
          have hr2ne : r2 ≠ [] := skipWs_ne_nil_of_cons _ _ _ hsw
          rw [ihV _ t _ hv (Or.inl hr2ne)]
          simp only []
          rw [skipWs_append r2 t c r3 hsw]
          simp only [] at h ⊢
          by_cases h1 : (c == ',') = true
          · rw [if_pos h1] at h ⊢
            exact ihAE _ _ _ h
          · rw [if_neg h1] at h ⊢
            by_cases h2 : (c == ']') = true
            · rw [if_pos h2] at h ⊢
              injection h with h
              subst h
              rfl
            · rw [if_neg h2] at h
              exact absurd h (by simp)

theorem jsonComplete_no_strict_pre (p t : List Char) (ht : t ≠ [])
    (hh : (p ++ t).head? = some ('{'))
    (hl : lastNotWs (p ++ t) = true)
    (hc : jsonComplete (p ++ t) = true) :
    jsonComplete p = false := by
  by_contra hcp
  rw [Bool.not_eq_false] at hcp
  unfold jsonComplete parseJson at hcp hc
  cases hp : parseVal (jsonFuel p) p with
  | none =>
    rw [hp] at hcp
    exact absurd hcp (by simp)
  | some r =>
    rw [hp] at hcp
    simp only [] at hcp
    cases hpl : p with
    | nil =>
      rw [hpl] at hp
      rw [(by decide : parseVal (jsonFuel ([] : List Char)) ([] : List Char)
          = none)] at hp
      exact absurd hp (by simp)
    | cons c0 p' =>
      subst hpl
      have hc0 : c0 = '{' := by
        rw [List.cons_append, List.head?_cons] at hh
        injection hh
      subst hc0
      have hskip : skipWs ('{' :: p') = '{' :: p' := by
        simp only [skipWs]
        rw [if_neg (by decide)]
      have hsd : valSelfDelim ('{' :: p') = true := by
        unfold valSelfDelim
        rw [hskip]
        simp
      have hext := (parseExt (jsonFuel ('{' :: p'))).1 _ t _ hp (Or.inr hsd)
      have hle : jsonFuel ('{' :: p') ≤ jsonFuel (('{' :: p') ++ t) := by
        unfold jsonFuel
        simp only [List.length_append]
        omega
      have hbig := parseValLe _ _ _ _ hle hext
      rw [hbig] at hc
      simp only [] at hc
      unfold wsOnly at hc
      rw [List.all_append] at hc
      have hwt : t.all isJsonWs = true := by
        simp only [Bool.and_eq_true] at hc
        exact hc.2
      obtain ⟨d, hd⟩ : ∃ d, t.getLast? = some d := by
        cases hgt : t.getLast? with
        | none => exact absurd (List.getLast?_eq_none_iff.mp hgt) ht
        | some d => exact ⟨d, rfl⟩
      have hdmem : d ∈ t := List.mem_of_mem_getLast? hd
      have hdw : isJsonWs d = true := List.all_eq_true.mp hwt d hdmem
      unfold lastNotWs at hl
      rw [List.getLast?_append, hd] at hl
      simp [hdw] at hl

theorem runData_settle_complete :
    ∀ (chunks : List (List Char)) (buf r : List Char),
      runDataEvents buf chunks = some r → jsonComplete r = true := by
  intro chunks
  induction chunks with
  | nil =>
    intro buf r h
    simp [runDataEvents] at h
  | cons c cs ih =>
    intro buf r h
    unfold runDataEvents at h
    by_cases hc : jsonComplete (buf ++ c) = true
    · rw [if_pos hc] at h
      injection h with h
      subst h
      exact hc
    · rw [if_neg hc] at h
      exact ih _ _ h

theorem runData_settles (resp : List Char)
    (hresp : jsonComplete resp = true) (hh : resp.head? = some ('{'))
    (hl : lastNotWs resp = true) :
    ∀ (chunks : List (List Char)) (buf : List Char),
      buf ++ chunks.flatten = resp → chunks ≠ [] →
      runDataEvents buf chunks = some resp := by
  intro chunks
  induction chunks with
  | nil =>
    intro buf h hne
    exact absurd rfl hne
  | cons c cs ih =>
    intro buf hjoin hne
    simp only [List.flatten_cons] at hjoin
    have hbuf1 : (buf ++ c) ++ cs.flatten = resp := by
      rw [← hjoin]
      simp [List.append_assoc]
    unfold runDataEvents
    by_cases hcs : cs.flatten = []
    · have hfull : buf ++ c = resp := by
        rw [← hbuf1, hcs]
        simp
      rw [hfull]
      rw [if_pos hresp]
    · have hnotyet : jsonComplete (buf ++ c) = false := by
        apply jsonComplete_no_strict_pre (buf ++ c) cs.flatten hcs
        · rw [hbuf1]
          exact hh
        · rw [hbuf1]
          exact hl
        · rw [hbuf1]
          exact hresp
      rw [hnotyet]
      simp only [Bool.false_eq_true, if_false]
      apply ih (buf ++ c) hbuf1
      intro h0
      subst h0
      simp at hcs

/-- C3: the response reader accumulates chunks into a buffer and settles the
pending call only at a buffer state that parses as one complete JSON value —
for an object-shaped response (the wire responses are JSON-RPC objects,
without trailing whitespace), under every way of splitting the response into
chunks the call settles exactly when the whole response has accumulated, and
never on a strict partial prefix. -/
theorem response_framing_complete_json :
    (∀ (chunks : List (List Char)) (buf r : List Char),
      runDataEvents buf chunks = some r → jsonComplete r = true) ∧
    (∀ (chunks : List (List Char)) (resp : List Char),
      chunks.flatten = resp →
      resp.head? = some ('{') →
      lastNotWs resp = true →
      jsonComplete resp = true →
      runDataEvents [] chunks = some resp) := by
  constructor
  · exact runData_settle_complete
  · intro chunks resp hjoin hh hl hc
    apply runData_settles resp hc hh hl chunks [] (by simpa using hjoin)
    intro h0
    subst h0
    simp only [List.flatten_nil] at hjoin
    rw [← hjoin] at hh
    simp at hh

/-- First chunk of the C3 witness response. -/
def respChunk1 : List Char := ("\x7b\"a\"").toList

/-- Second chunk of the C3 witness response. -/
def respChunk2 : List Char := (":0\x7d").toList

/-- Witness for C3 at a concrete two-chunk split of an object response. -/
theorem response_framing_complete_json_witness :
    runDataEvents [] [respChunk1, respChunk2]
        = some (("\x7b\"a\":0\x7d").toList) ∧
    jsonComplete (("\x7b\"a\":0\x7d").toList) = true :=
  ⟨response_framing_complete_json.2 [respChunk1, respChunk2]
      (("\x7b\"a\":0\x7d").toList) (by decide) (by decide) (by decide)
      (by decide),
    by decide⟩
